import Mathlib

/-!
Verification development for the BlindingApp document-redaction engine
(`file_blinder.py`).  The Python source is shallowly embedded below: pure
helpers become Lean functions, the external `re` library's regex matcher is
taken as an explicit function parameter where its behaviour is not determined
by the repository's code, and the container (zip) collaborator is abstracted
to the level of parts-with-metadata that the source manipulates.
-/

namespace BlindingApp

/-! ## Pattern substitution engine (`replace_keywords_in_text`, lines 322-335)

A rule is a pair (pattern, replacement).  The source treats a pattern as a
regex iff `original.startswith(r'\b') or original.startswith(r'[')`
(line 329); otherwise it escapes the pattern with `re.escape` and substitutes
it as a case-insensitive literal.  `re.sub(re.escape(p), r, t, IGNORECASE)`
is substitution of the raw literal `p`, leftmost, non-overlapping,
case-insensitive; this composite is modelled by `subLiteralCI`. -/

deriving instance DecidableEq for Except

/-- Case-insensitive prefix test on character lists. -/
def startsWithCI : List Char → List Char → Bool
  | [], _ => true
  | _ :: _, [] => false
  | p :: ps, t :: ts => (p.toLower == t.toLower) && startsWithCI ps ts

/-- Exact prefix test on character lists (Python `str.startswith`). -/
def startsWithEq : List Char → List Char → Bool
  | [], _ => true
  | _ :: _, [] => false
  | p :: ps, t :: ts => (p == t) && startsWithEq ps ts

/-- Exact substring occurrence (the Python `sub in s` test). -/
def occursSub (pat : List Char) : List Char → Bool
  | [] => pat.isEmpty
  | t :: ts => startsWithEq pat (t :: ts) || occursSub pat ts

/-- `sub in s` for strings. -/
def strContains (s sub : String) : Bool := occursSub sub.data s.data

-- Leftmost, non-overlapping, case-insensitive literal substitution on
-- character lists: the behaviour of Python
-- `re.sub(re.escape(pat), repl, text, flags=re.IGNORECASE)`.  Every step
-- consumes at least one character of the text, so recursion on the text's
-- length as fuel is exact: the `0, _ :: _` case is never reached when the
-- fuel starts at the text's length.
def subCIAux (pat repl : List Char) : Nat → List Char → List Char
  | _, [] => if pat.isEmpty then repl else []
  | 0, t :: ts => t :: ts
  | fuel + 1, t :: ts =>
    if pat.isEmpty then repl ++ t :: subCIAux pat repl fuel ts
    else if startsWithCI pat (t :: ts) then
      repl ++ subCIAux pat repl fuel (List.drop (pat.length - 1) ts)
    else t :: subCIAux pat repl fuel ts

def subCIList (pat repl text : List Char) : List Char :=
  subCIAux pat repl text.length text

/-- String wrapper for `subCIList`. -/
def subLiteralCI (pat repl text : String) : String :=
  ⟨subCIList pat.data repl.data text.data⟩

/-- Case-insensitive occurrence test: does the literal `pat` match anywhere
inside `text` (the way `re.search(re.escape(pat), text, IGNORECASE)` would)? -/
def occursCIList (pat : List Char) : List Char → Bool
  | [] => pat.isEmpty
  | t :: ts => startsWithCI pat (t :: ts) || occursCIList pat ts

/-- String wrapper for `occursCIList`. -/
def occursCI (pat text : String) : Bool := occursCIList pat.data text.data

/-- Line 329 of `file_blinder.py`:
`if original.startswith(r'\b') or original.startswith(r'['):`. -/
def is_regex_pattern (p : String) : Bool :=
  startsWithEq ['\\', 'b'] p.data || startsWithEq ['['] p.data

/-- The spec's wording of the regex flag for claim C4: "true if the pattern
begins with a word-boundary anchor or contains a character class opener". -/
def is_regex_pattern_spec_contains (p : String) : Bool :=
  startsWithEq ['\\', 'b'] p.data || p.data.contains '['

/-- Amended wording: "begins with a word-boundary anchor or begins with a
character class opener". -/
def is_regex_pattern_spec_startsWith (p : String) : Bool :=
  startsWithEq ['\\', 'b'] p.data || startsWithEq ['['] p.data

/-- Model of the external `re` library's compile check, restricted to the
malformation exercised by this repository's rule syntax: a pattern whose
character class opener `[` is never closed raises `re.error`
("unterminated character set").  All other patterns are taken to compile. -/
def classesClosed : List Char → Bool
  | [] => true
  | c :: rest => if c = '[' then closeClass rest else classesClosed rest
where
  closeClass : List Char → Bool
    | [] => false
    | c :: rest => if c = ']' then classesClosed rest else closeClass rest

/-- A pattern compiles in the `re` model iff its character classes close. -/
def reCompiles (p : String) : Bool := classesClosed p.data

/-- One iteration of the loop body of `replace_keywords_in_text`
(lines 327-333).  `reSubR` is the external regex substitution used when a
regex-flagged pattern compiles; a pattern that fails to compile raises
`re.error`, modelled as `Except.error pattern`. -/
def applyRule (reSubR : String → String → String → String)
    (pr : String × String) (t : String) : Except String String :=
  if is_regex_pattern pr.1 then
    if reCompiles pr.1 then .ok (reSubR pr.1 pr.2 t) else .error pr.1
  else .ok (subLiteralCI pr.1 pr.2 t)

/-- The rule loop of `replace_keywords_in_text`: rules applied in insertion
order, each scanning the already-substituted output of the previous rules;
the first `re.error` aborts the loop. -/
def applyRules (reSubR : String → String → String → String) :
    List (String × String) → String → Except String String
  | [], t => .ok t
  | pr :: rest, t =>
    match applyRule reSubR pr t with
    | .ok t' => applyRules reSubR rest t'
    | .error e => .error e

/-- `replace_keywords_in_text` (lines 322-335): empty text is returned
unchanged (`if not text: return text`), otherwise the rule loop runs. -/
def replace_keywords_in_text (reSubR : String → String → String → String)
    (rules : List (String × String)) (text : String) : Except String String :=
  if text = "" then .ok text else applyRules reSubR rules text

/-- The `.txt` branch of `blind_file` (lines 2716-2718 dispatching to
`process_txt_file`, lines 2642-2668) together with the surrounding
`try/except Exception` (lines 2695-2727) that prints the error and returns
`None`: any exception raised during the pass is swallowed and the caller
receives `None`. -/
def blind_file_txt (reSubR : String → String → String → String)
    (rules : List (String × String)) (content : String) : Option String :=
  match replace_keywords_in_text reSubR rules content with
  | .ok r => some r
  | .error _ => none

/-! ## Qualified-name XML element model

`file_blinder.py` manipulates `xml.etree.ElementTree` elements whose tags and
attribute keys are namespace-qualified (`{uri}local`).  A qualified name is
modelled as a namespace marker plus a local name; `findall('w:x', namespaces)`
is exact qualified-tag matching, and `str(tag).split('}')[-1]` is the local
name. -/

structure QTag where
  ns : String
  nm : String
deriving DecidableEq, Repr

/-- The wordprocessingml main namespace qualifier used throughout the source. -/
def wTag (s : String) : QTag := ⟨"w", s⟩

/-- An ElementTree element: qualified tag, ordered attributes, optional text,
ordered children. -/
inductive Elem where
  | node (tag : QTag) (attrs : List (QTag × String)) (text : Option String)
      (children : List Elem)
deriving Repr

def Elem.tag : Elem → QTag
  | .node t _ _ _ => t

def Elem.attrs : Elem → List (QTag × String)
  | .node _ a _ _ => a

def Elem.text : Elem → Option String
  | .node _ _ x _ => x

def Elem.children : Elem → List Elem
  | .node _ _ _ cs => cs

/-- `elem.get(k)`: attribute lookup. -/
def Elem.attrGet (e : Elem) (k : QTag) : Option String :=
  (e.attrs.find? (fun p => p.1 = k)).map (·.2)

/-- `elem.set(k, v)`: replace the value of an existing key in place, else
append the pair (ElementTree attribute-dict semantics). -/
def setAttr (k : QTag) (v : String) (attrs : List (QTag × String)) :
    List (QTag × String) :=
  if attrs.any (fun p => p.1 == k) then
    attrs.map (fun p => if p.1 == k then (k, v) else p)
  else attrs ++ [(k, v)]

/-- `del elem.attrib[k]` guarded by a containment test. -/
def delAttr (k : QTag) (attrs : List (QTag × String)) : List (QTag × String) :=
  attrs.filter (fun p => p.1 ≠ k)

-- The visible character data of a subtree: concatenated text of every
-- `w:t` element in document order (what the source reads back as a
-- paragraph's plain text).
mutual
def textOf : Elem → List Char
  | .node t _ txt cs =>
    (if t = wTag "t" then (txt.getD "").data else []) ++ textsOf cs
def textsOf : List Elem → List Char
  | [] => []
  | c :: cs => textOf c ++ textsOf cs
end

-- No `w:hyperlink` element anywhere in the subtree.
mutual
def hyperlinkFree : Elem → Bool
  | .node t _ _ cs => (t ≠ wTag "hyperlink") && hyperlinkFreeL cs
def hyperlinkFreeL : List Elem → Bool
  | [] => true
  | c :: cs => hyperlinkFree c && hyperlinkFreeL cs
end

/-! ## Hyperlink unwrap (`process_docx_xml_safe`, lines 1555-1596)

For every `w:hyperlink` the source moves the wrapper's children to the
wrapper's position in its parent; each moved child whose local tag name is
`r` has every direct `w:rPr` child cleaned — direct `w:u` children removed,
the first direct `w:color` child forced to explicit black `val="000000"`
with the theme attributes deleted (a fresh `w:color` is inserted at
position 0 when none exists) — and the emptied wrapper is removed. -/

/-- Lines 1581-1590: set `w:val` to `000000`, then delete `w:themeColor`,
`w:themeTint`, `w:themeShade`. -/
def forceBlackColorElem : Elem → Elem
  | .node t a txt cs =>
    .node t
      (delAttr (wTag "themeShade") (delAttr (wTag "themeTint")
        (delAttr (wTag "themeColor") (setAttr (wTag "val") "000000" a))))
      txt cs

/-- The fresh element created by `ET.Element('{...}color')` (line 1577). -/
def newColorElem : Elem := .node (wTag "color") [] none []

/-- Clean the first direct `w:color` child (only the first: `rPr.find`). -/
def mapFirstColor : List Elem → List Elem
  | [] => []
  | c :: cs =>
    if c.tag = wTag "color" then forceBlackColorElem c :: cs
    else c :: mapFirstColor cs

/-- Lines 1568-1590 applied to one `w:rPr` element: remove the direct `w:u`
children, then force the first direct `w:color` child to black, inserting a
fresh one at index 0 when absent. -/
def cleanRPr : Elem → Elem
  | .node t a txt cs =>
    let cs₁ := cs.filter (fun e => e.tag ≠ wTag "u")
    let cs₂ :=
      if cs₁.any (fun e => e.tag == wTag "color") then mapFirstColor cs₁
      else forceBlackColorElem newColorElem :: cs₁
    .node t a txt cs₂

/-- Lines 1564-1591 applied to one child moved out of a hyperlink: when its
local tag name is `r`, every direct `w:rPr` child is cleaned. -/
def cleanLinkChild (c : Elem) : Elem :=
  match c with
  | .node t a txt cs =>
    if t.nm = "r" then
      .node t a txt (cs.map (fun g => if g.tag = wTag "rPr" then cleanRPr g else g))
    else c

/-- Lines 1556-1595 restricted to the direct children of one paragraph:
each `w:hyperlink` child is replaced, in position, by its cleaned children. -/
def remove_hyperlinks_children : List Elem → List Elem
  | [] => []
  | c :: cs =>
    (if c.tag = wTag "hyperlink" then c.children.map cleanLinkChild else [c]) ++
      remove_hyperlinks_children cs

/-- The run has no underline override: no direct `w:u` inside any direct
`w:rPr`. -/
def noUnderlineRun (c : Elem) : Bool :=
  c.children.all (fun g =>
    if g.tag = wTag "rPr" then g.children.all (fun u => u.tag ≠ wTag "u")
    else true)

/-- Every `w:color` inside any direct `w:rPr` of the run is the explicit
black override with no theme reference: no hyperlink colour survives. -/
def colorsBlackRun (c : Elem) : Bool :=
  c.children.all (fun g =>
    if g.tag = wTag "rPr" then
      g.children.all (fun e =>
        if e.tag = wTag "color" then
          e.attrGet (wTag "val") == some "000000" &&
          e.attrGet (wTag "themeColor") == none &&
          e.attrGet (wTag "themeTint") == none &&
          e.attrGet (wTag "themeShade") == none
        else true)
    else true)

/-! ## Selective image removal (`process_docx_selective`, lines 2009-2564)

The pipeline hashes each physical media asset, marks the assets to remove via
`should_remove_image` (lines 70-76), collects the relationship ids whose
targets name marked assets (lines 2069-2117), removes every run containing an
embedding whose relationship id is marked (`remove_images_from_tree`,
lines 2143-2208), and finally deletes the marked physical files
(lines 2521-2532).  The cryptographic hash (`hashlib.sha256`, line 68) is an
external collaborator and is passed in as a function. -/

structure MediaFile where
  name : String
  data : List Nat
deriving DecidableEq, Repr

structure Relationship where
  rid : String
  target : String
deriving DecidableEq, Repr

/-- The three embedding mechanisms scanned by `remove_images_from_tree`:
a modern drawing's `a:blip` with an `r:embed` attribute, a legacy
`w:pict`'s `imagedata` with an `r:id` attribute, and an embedded
`w:object`'s `imagedata` with an `r:id` attribute (the attribute may be
absent, in which case the run cannot be matched). -/
inductive Embedding where
  | drawing (embedId : Option String)
  | pict (refId : Option String)
  | obj (refId : Option String)
deriving DecidableEq, Repr

def Embedding.relId : Embedding → Option String
  | .drawing i => i
  | .pict i => i
  | .obj i => i

/-- A `w:r` run, abstracted to the embeddings it contains. -/
structure DocRun where
  embeds : List Embedding
deriving DecidableEq, Repr

/-- `should_remove_image` (lines 70-76): with an empty selection everything
is removed (backward compatibility); otherwise exactly the assets whose hash
is in the selection. -/
def should_remove_image (hash : List Nat → String) (sel : List String)
    (data : List Nat) : Bool :=
  if sel.isEmpty then true else sel.contains (hash data)

/-- Lines 2050-2067: the names of the media files marked for removal. -/
def images_to_remove (hash : List Nat → String) (sel : List String)
    (media : List MediaFile) : List String :=
  (media.filter (fun m => should_remove_image hash sel m.data)).map MediaFile.name

/-- `Path(target).name`: the component after the last `/`. -/
def pathName (t : String) : String :=
  ⟨t.data.foldl (fun acc c => if c = '/' then [] else acc ++ [c]) []⟩

/-- Lines 2069-2117: relationship ids whose target lies under `media/` and
names a marked asset. -/
def rel_ids_to_remove (rels : List Relationship) (removeNames : List String) :
    List String :=
  (rels.filter (fun r =>
    strContains r.target "media/" && removeNames.contains (pathName r.target))).map
    Relationship.rid

/-- Lines 2149-2195: a run is a removal target iff one of its embeddings
carries a marked relationship id. -/
def run_should_remove (marked : List String) (run : DocRun) : Bool :=
  run.embeds.any (fun e =>
    match e.relId with
    | some i => marked.contains i
    | none => false)

/-- Lines 2197-2208: collect-then-remove of the matched runs. -/
def remove_images_from_tree (marked : List String) (runs : List DocRun) :
    List DocRun :=
  runs.filter (fun r => !run_should_remove marked r)

/-- Lines 2521-2532: the asset store after the marked physical files are
deleted; the kept files are the extracted bytes, untouched. -/
def remaining_media (hash : List Nat → String) (sel : List String)
    (media : List MediaFile) : List MediaFile :=
  media.filter (fun m => !should_remove_image hash sel m.data)

/-- The embeddings still present after run removal. -/
def surviving_embeds (marked : List String) (runs : List DocRun) :
    List Embedding :=
  (remove_images_from_tree marked runs).flatMap DocRun.embeds

/-- Every embedding of the run resolves, through some relationship entry
with a `media/` target, to a physical media asset — the well-formedness the
file format guarantees (each embedding reference id is resolvable via the
per-part relationship table). -/
def embedsResolvable (rels : List Relationship) (media : List MediaFile)
    (run : DocRun) : Prop :=
  ∀ e ∈ run.embeds, ∃ rel ∈ rels, e.relId = some rel.rid ∧
    strContains rel.target "media/" = true ∧
    ∃ m ∈ media, m.name = pathName rel.target

/-- The embedding resolves to a media asset whose content hash is in the
selection set. -/
def resolvesToSelected (hash : List Nat → String) (sel : List String)
    (rels : List Relationship) (media : List MediaFile) (e : Embedding) :
    Prop :=
  ∃ rel ∈ rels, e.relId = some rel.rid ∧
    strContains rel.target "media/" = true ∧
    ∃ m ∈ media, m.name = pathName rel.target ∧
      sel.contains (hash m.data) = true

/-! ## Formatting options (`FileBlinder.__init__`, lines 33-63, and
`standardize_run_formatting`, lines 410-463)

`standardize_run_formatting` returns immediately when
`standardize_formatting` is false (line 412); otherwise it sets the font
name when `font_name` is truthy, the size when `font_size` is truthy,
forces the colour to black and clears the theme colour when
`font_color_black` is set, and unconditionally clears highlighting and
`shd` children of the run properties (lines 439-454).  `grey_shading` is
stored (line 63) but never read anywhere in the module. -/

structure FileBlinderOptions where
  standardize_formatting : Bool
  font_name : String
  font_size : Option Nat
  font_color_black : Bool
  grey_shading : Bool
deriving DecidableEq, Repr

/-- The keyword-argument defaults of `FileBlinder.__init__` (lines 33-34). -/
def defaultOptions : FileBlinderOptions :=
  { standardize_formatting := true
    font_name := "Calibri"
    font_size := some 11
    font_color_black := true
    grey_shading := false }

/-- Python truthiness of `self.font_size` (`None` and `0` are falsy). -/
def fontSizeTruthy : Option Nat → Bool
  | none => false
  | some n => n != 0

/-- The observable state of one run's formatting. -/
structure RunFormat where
  fontName : Option String
  fontSize : Option Nat
  colorRgb : Option (Nat × Nat × Nat)
  themeColor : Option String
  highlight : Option String
  hasShd : Bool
deriving DecidableEq, Repr

/-- `standardize_run_formatting` (lines 410-463) as a pure state transformer. -/
def standardize_run_formatting (b : FileBlinderOptions) (run : RunFormat) :
    RunFormat :=
  if !b.standardize_formatting then run
  else
    let r1 := if b.font_name ≠ "" then { run with fontName := some b.font_name } else run
    let r2 := if fontSizeTruthy b.font_size then { r1 with fontSize := b.font_size } else r1
    let r3 := if b.font_color_black then
        { r2 with colorRgb := some (0, 0, 0), themeColor := none }
      else r2
    { r3 with highlight := none, hasShd := false }

/-! ## Container collaborator (`zipfile` use at lines 1277-1278 and 1772-1779)

The archive is abstracted to its ordered entries; an entry's path, bytes and
compression method are all part of the byte-level representation (two
archives differing in entry order or in an entry's compression method are
different byte strings).  `extractall` writes each entry's decompressed data
at its path inside the scratch directory, forgetting compression metadata;
the rebuild walks the scratch directory and writes every file with
`zipfile.ZIP_DEFLATED` (line 1774). -/

inductive ZipMethod where
  | stored
  | deflated
deriving DecidableEq, Repr

structure ZipEntry where
  path : String
  data : List Nat
  method : ZipMethod
deriving DecidableEq, Repr

abbrev Container := List ZipEntry

/-- `zip_ref.extractall(temp_dir)` (line 1278): path ↦ decompressed bytes. -/
def extract_container (b : Container) : List (String × List Nat) :=
  b.map (fun e => (e.path, e.data))

/-- Lines 1774-1779: every file rewritten with `ZIP_DEFLATED`. -/
def rebuild_container (files : List (String × List Nat)) : Container :=
  files.map (fun f => ⟨f.1, f.2, ZipMethod.deflated⟩)

/-! ## Dispatch and error flow (`blind_file`, lines 2670-2727, and
`extract_document_structure`, lines 77-88) -/

/-- The body of `blind_file`'s `try` block (lines 2700-2721): dispatch on the
lower-cased extension; an unrecognized extension raises
`ValueError("Unsupported file type: ...")`. -/
def blind_file_dispatch (ext : String) : Except String String :=
  if ext = ".docx" then .ok "docx"
  else if ext = ".html" || ext = ".htm" then .ok "html"
  else if ext = ".txt" then .ok "txt"
  else .error ("Unsupported file type: " ++ ext)

/-- `blind_file` wraps the dispatch in `try/except Exception` that prints and
returns `None` (lines 2725-2727): the caller receives `None`, never the
exception. -/
def blind_file_result (ext : String) : Option String :=
  (blind_file_dispatch ext).toOption

/-- `extract_document_structure` (lines 77-88): same dispatch, but the
`ValueError` propagates to the caller uncaught. -/
def extract_document_structure_kind (ext : String) : Except String String :=
  if ext = ".docx" then .ok "docx"
  else if ext = ".html" || ext = ".htm" then .ok "html"
  else if ext = ".txt" then .ok "txt"
  else .error ("Unsupported file type: " ++ ext)

/-! ## Structure snapshots and the differ (`generate_diff`, lines 240-320)

Snapshots pair paragraph records and table records; `generate_diff` walks
`enumerate(zip(...))` over both sequences.  The per-paragraph character diff
is produced by the external `difflib.SequenceMatcher`; it is passed in as an
opcode function and is only consulted when the paired texts differ. -/

structure Formatting where
  fontName : Option String
  fontSize : Option Nat
  fontColor : Option String
  isBold : Bool
  isItalic : Bool
deriving DecidableEq, Repr

structure ParaRecord where
  text : String
  hasImage : Bool
  formatting : Formatting
deriving DecidableEq, Repr

structure CellRecord where
  text : String
  hasShading : Bool
deriving DecidableEq, Repr

structure TableRecord where
  rows : List (List CellRecord)
  hasShading : Bool
deriving DecidableEq, Repr

structure Snapshot where
  paragraphs : List ParaRecord
  tables : List TableRecord
deriving Repr

/-- One entry of the per-paragraph character diff (lines 264-283). -/
inductive TextChange where
  | replace (original processed : String) (position : Nat)
  | delete (original : String) (position : Nat)
  | insert (processed : String) (position : Nat)
deriving DecidableEq, Repr

structure DiffData where
  paragraph_changes : List (Nat × List TextChange)
  image_changes : List (Nat × Bool)
  table_changes : List (Nat × Bool)
  formatting_changes : List (Nat × Formatting × Formatting)
deriving Repr

-- Lines 252-289: one `paragraph_changes` entry per positional pair whose
-- texts differ and whose opcode list is non-empty.
def paraChangesAux (opcodes : String → String → List TextChange) :
    Nat → List (ParaRecord × ParaRecord) → List (Nat × List TextChange)
  | _, [] => []
  | i, (o, p) :: rest =>
    (if o.text ≠ p.text then
      (if opcodes o.text p.text ≠ [] then [(i, opcodes o.text p.text)] else [])
    else []) ++ paraChangesAux opcodes (i + 1) rest

-- Lines 291-296: `orig.has_image and not proc.has_image`.
def imageChangesAux :
    Nat → List (ParaRecord × ParaRecord) → List (Nat × Bool)
  | _, [] => []
  | i, (o, p) :: rest =>
    (if o.hasImage && !p.hasImage then [(i, true)] else []) ++
      imageChangesAux (i + 1) rest

-- Lines 298-307: formatting summaries compared field-wise.
def formattingChangesAux :
    Nat → List (ParaRecord × ParaRecord) → List (Nat × Formatting × Formatting)
  | _, [] => []
  | i, (o, p) :: rest =>
    (if o.formatting ≠ p.formatting then [(i, o.formatting, p.formatting)] else []) ++
      formattingChangesAux (i + 1) rest

-- Lines 309-318: a `table_changes` entry with the constant flag
-- `shading_removed: True` whenever the paired `has_shading` flags differ.
def tableChangesAux :
    Nat → List (TableRecord × TableRecord) → List (Nat × Bool)
  | _, [] => []
  | i, (o, p) :: rest =>
    (if o.hasShading ≠ p.hasShading then [(i, true)] else []) ++
      tableChangesAux (i + 1) rest

/-- `generate_diff` (lines 240-320). -/
def generate_diff (opcodes : String → String → List TextChange)
    (original processed : Snapshot) : DiffData :=
  let paraPairs := original.paragraphs.zip processed.paragraphs
  let tablePairs := original.tables.zip processed.tables
  { paragraph_changes := paraChangesAux opcodes 0 paraPairs
    image_changes := imageChangesAux 0 paraPairs
    table_changes := tableChangesAux 0 tablePairs
    formatting_changes := formattingChangesAux 0 paraPairs }

/-! ## Theorems -/

/-! ### C9: diff of a snapshot against itself -/

theorem paraChangesAux_zip_self (f : String → String → List TextChange)
    (i : Nat) (l : List ParaRecord) : paraChangesAux f i (l.zip l) = [] := by
  induction l generalizing i with
  | nil => rfl
  | cons a l ih =>
    have hz : (a :: l).zip (a :: l) = (a, a) :: l.zip l := rfl
    rw [hz]
    show (if a.text ≠ a.text then
        (if f a.text a.text ≠ [] then [(i, f a.text a.text)] else []) else []) ++
      paraChangesAux f (i + 1) (l.zip l) = []
    rw [if_neg (by simp), ih (i + 1)]
    rfl

theorem imageChangesAux_zip_self (i : Nat) (l : List ParaRecord) :
    imageChangesAux i (l.zip l) = [] := by
  induction l generalizing i with
  | nil => rfl
  | cons a l ih =>
    have hz : (a :: l).zip (a :: l) = (a, a) :: l.zip l := rfl
    rw [hz]
    show (if a.hasImage && !a.hasImage then [(i, true)] else []) ++
      imageChangesAux (i + 1) (l.zip l) = []
    rw [if_neg (by simp), ih (i + 1)]
    rfl

theorem formattingChangesAux_zip_self (i : Nat) (l : List ParaRecord) :
    formattingChangesAux i (l.zip l) = [] := by
  induction l generalizing i with
  | nil => rfl
  | cons a l ih =>
    have hz : (a :: l).zip (a :: l) = (a, a) :: l.zip l := rfl
    rw [hz]
    show (if a.formatting ≠ a.formatting then [(i, a.formatting, a.formatting)]
        else []) ++ formattingChangesAux (i + 1) (l.zip l) = []
    rw [if_neg (by simp), ih (i + 1)]
    rfl

theorem tableChangesAux_zip_self (i : Nat) (l : List TableRecord) :
    tableChangesAux i (l.zip l) = [] := by
  induction l generalizing i with
  | nil => rfl
  | cons a l ih =>
    have hz : (a :: l).zip (a :: l) = (a, a) :: l.zip l := rfl
    rw [hz]
    show (if a.hasShading ≠ a.hasShading then [(i, true)] else []) ++
      tableChangesAux (i + 1) (l.zip l) = []
    rw [if_neg (by simp), ih (i + 1)]
    rfl

/-- C9: for every snapshot `S`, diffing `S` against itself yields a
`DiffData` whose four lists (`paragraph_changes`, `image_changes`,
`table_changes`, `formatting_changes`) are all empty, whatever the external
opcode function does. -/
theorem generate_diff_self_empty (f : String → String → List TextChange)
    (S : Snapshot) :
    (generate_diff f S S).paragraph_changes = [] ∧
    (generate_diff f S S).image_changes = [] ∧
    (generate_diff f S S).table_changes = [] ∧
    (generate_diff f S S).formatting_changes = [] := by
  refine ⟨?_, ?_, ?_, ?_⟩ <;>
    simp [generate_diff, paraChangesAux_zip_self, imageChangesAux_zip_self,
      tableChangesAux_zip_self, formattingChangesAux_zip_self]

/-! ### C10: table shading entries are emitted in either direction with a
constant flag -/

theorem tableChangesAux_mem_of_ne (i j : Nat)
    (ps : List (TableRecord × TableRecord)) (o p : TableRecord)
    (h : ps.get? j = some (o, p)) (hne : o.hasShading ≠ p.hasShading) :
    (i + j, true) ∈ tableChangesAux i ps := by
  induction ps generalizing i j with
  | nil => simp [List.get?] at h
  | cons a rest ih =>
    have hstep : tableChangesAux i (a :: rest) =
        (if a.1.hasShading ≠ a.2.hasShading then [(i, true)] else []) ++
          tableChangesAux (i + 1) rest := rfl
    rw [hstep]
    cases j with
    | zero =>
      have ha : a = (o, p) := by simpa [List.get?] using h
      subst ha
      rw [if_pos hne]
      simp
    | succ j' =>
      have h' : rest.get? j' = some (o, p) := by simpa [List.get?] using h
      have hmem := ih (i + 1) j' h'
      have harith : i + (j' + 1) = i + 1 + j' := by omega
      rw [harith]
      exact List.mem_append_right _ hmem

theorem tableChangesAux_flag_true (i : Nat)
    (ps : List (TableRecord × TableRecord)) :
    ∀ e ∈ tableChangesAux i ps, e.2 = true := by
  induction ps generalizing i with
  | nil => intro e he; simp [tableChangesAux] at he
  | cons a rest ih =>
    intro e he
    have hstep : tableChangesAux i (a :: rest) =
        (if a.1.hasShading ≠ a.2.hasShading then [(i, true)] else []) ++
          tableChangesAux (i + 1) rest := rfl
    rw [hstep] at he
    rcases List.mem_append.mp he with h1 | h2
    · by_cases hc : a.1.hasShading ≠ a.2.hasShading
      · rw [if_pos hc] at h1
        simp at h1
        simp [h1]
      · rw [if_neg hc] at h1
        simp at h1
    · exact ih (i + 1) e h2

/-- C10: whenever the `j`-th positionally paired tables of two snapshots have
differing `has_shading` flags — in either direction, including shading
present only in the post snapshot — `generate_diff` emits a `table_changes`
entry `(j, shading_removed := true)`; every `table_changes` entry carries the
constant flag `true`, so the flag does not indicate the direction of the
change. -/
theorem generate_diff_table_shading (f : String → String → List TextChange)
    (pre post : Snapshot) (j : Nat) (o p : TableRecord)
    (h : (pre.tables.zip post.tables).get? j = some (o, p))
    (hne : o.hasShading ≠ p.hasShading) :
    (j, true) ∈ (generate_diff f pre post).table_changes ∧
    ∀ e ∈ (generate_diff f pre post).table_changes, e.2 = true := by
  constructor
  · have := tableChangesAux_mem_of_ne 0 j (pre.tables.zip post.tables) o p h hne
    simpa [generate_diff] using this
  · intro e he
    exact tableChangesAux_flag_true 0 _ e (by simpa [generate_diff] using he)

/-- Witness for C10 at a concrete input: shading present only in the post
snapshot still produces a `(0, true)` entry. -/
theorem generate_diff_table_shading_witness :
    (0, true) ∈ (generate_diff (fun _ _ => [])
      ⟨[], [⟨[], false⟩]⟩ ⟨[], [⟨[], true⟩]⟩).table_changes :=
  (generate_diff_table_shading (fun _ _ => [])
    ⟨[], [⟨[], false⟩]⟩ ⟨[], [⟨[], true⟩]⟩ 0 ⟨[], false⟩ ⟨[], true⟩
    rfl (by decide)).1

/-! ### C7: container round-trip -/

/-- C7 counterexample: a valid container holding one entry stored
uncompressed does not round-trip byte-identically — the rebuild at
line 1774 rewrites every entry with `ZIP_DEFLATED`, so the rebuilt archive
differs from the original byte string. -/
theorem container_roundtrip_counterexample :
    rebuild_container (extract_container
        [⟨"word/media/image1.png", [137, 80], ZipMethod.stored⟩]) ≠
      [⟨"word/media/image1.png", [137, 80], ZipMethod.stored⟩] := by
  decide

/-- C7 (amended): extraction followed by rebuild preserves every part's path
and bytes — untouched parts round-trip byte-identically at part level — and
the whole container byte string is reproduced exactly when every entry of
the original already uses the compression method the rebuild writes
(`ZIP_DEFLATED`). -/
theorem rebuild_extract_of_deflated :
    ∀ b : Container, b.all (fun e => e.method == ZipMethod.deflated) = true →
      rebuild_container (extract_container b) = b
  | [], _ => rfl
  | e :: rest, h => by
    obtain ⟨pa, da, me⟩ := e
    simp only [List.all_cons, Bool.and_eq_true, beq_iff_eq] at h
    obtain ⟨hme, hrest'⟩ := h
    subst hme
    have hrest := rebuild_extract_of_deflated rest hrest'
    simp only [extract_container, rebuild_container, List.map_cons] at hrest ⊢
    rw [hrest]

theorem container_roundtrip_parts (b : Container) :
    extract_container (rebuild_container (extract_container b)) =
      extract_container b ∧
    (b.all (fun e => e.method == ZipMethod.deflated) = true →
      rebuild_container (extract_container b) = b) := by
  constructor
  · simp [extract_container, rebuild_container]
  · exact rebuild_extract_of_deflated b

/-- Witness for C7 (amended) at a concrete all-deflated container. -/
theorem container_roundtrip_parts_witness :
    rebuild_container (extract_container
        [⟨"word/document.xml", [60, 63], ZipMethod.deflated⟩]) =
      [⟨"word/document.xml", [60, 63], ZipMethod.deflated⟩] :=
  (container_roundtrip_parts
    [⟨"word/document.xml", [60, 63], ZipMethod.deflated⟩]).2 (by decide)

/-! ### C8: unsupported extension -/

/-- C8 counterexample: for the unsupported extension `.pdf` the dispatch
does raise `ValueError("Unsupported file type: .pdf")`, but `blind_file`'s
blanket `except Exception` (lines 2725-2727) swallows it and returns
`None`, so no error is surfaced to the caller. -/
theorem blind_file_unsupported_counterexample :
    blind_file_dispatch ".pdf" = .error "Unsupported file type: .pdf" ∧
    blind_file_result ".pdf" = none := by
  constructor <;> rfl

/-- C8 (amended): for every extension outside the recognized set, the
dispatch raises `ValueError` naming the extension before any processing and
no output is produced (`blind_file` returns `None`), but the error is not
propagated to `blind_file`'s caller — it is caught and converted to `None`;
only `extract_document_structure` lets the same error propagate. -/
theorem blind_file_unsupported (ext : String)
    (h : ext ∉ [".docx", ".html", ".htm", ".txt"]) :
    blind_file_dispatch ext = .error ("Unsupported file type: " ++ ext) ∧
    blind_file_result ext = none ∧
    extract_document_structure_kind ext =
      .error ("Unsupported file type: " ++ ext) := by
  simp only [List.mem_cons, List.not_mem_nil, or_false, not_or] at h
  obtain ⟨h1, h2, h3, h4⟩ := h
  refine ⟨?_, ?_, ?_⟩ <;>
    simp [blind_file_dispatch, blind_file_result,
      extract_document_structure_kind, h1, h2, h3, h4, Except.toOption]

/-- Witness for C8 (amended) at the concrete extension `.pdf`. -/
theorem blind_file_unsupported_witness :
    blind_file_result ".pdf" = none :=
  (blind_file_unsupported ".pdf" (by decide)).2.1

/-! ### C6: option defaults and (non-)independence -/

/-- C6 counterexample: with `standardize_formatting := false` but
`font_color_black` still `true`, `standardize_run_formatting` leaves a red
run red (line 412 returns early), while the default options force it to
black — so toggling one field silently disables the effect of another. -/
theorem options_not_independent_counterexample :
    ({ defaultOptions with standardize_formatting := false } :
        FileBlinderOptions).font_color_black = true ∧
    (standardize_run_formatting defaultOptions
        ⟨none, none, some (255, 0, 0), none, none, false⟩).colorRgb =
      some (0, 0, 0) ∧
    (standardize_run_formatting
        { defaultOptions with standardize_formatting := false }
        ⟨none, none, some (255, 0, 0), none, none, false⟩).colorRgb =
      some (255, 0, 0) := by
  refine ⟨rfl, rfl, rfl⟩

/-- C6 (amended): the constructor defaults are as stated
(`standardize_formatting = true`, `font_name = "Calibri"`,
`font_size = 11`, `font_color_black = true`, and `grey_shading = false`,
the stored but never-read shading flag), and within
`standardize_run_formatting` each option acts independently — but only when
`standardize_formatting` is true; when it is false the function is the
identity, silently disabling every other option's effect on the run. -/
theorem standardize_run_formatting_behaviour :
    (defaultOptions.standardize_formatting = true ∧
      defaultOptions.font_name = "Calibri" ∧
      defaultOptions.font_size = some 11 ∧
      defaultOptions.font_color_black = true ∧
      defaultOptions.grey_shading = false) ∧
    (∀ (b : FileBlinderOptions) (run : RunFormat),
      b.standardize_formatting = false → standardize_run_formatting b run = run) ∧
    (∀ (b : FileBlinderOptions) (run : RunFormat),
      b.standardize_formatting = true →
        (standardize_run_formatting b run).colorRgb =
          (if b.font_color_black then some (0, 0, 0) else run.colorRgb) ∧
        (standardize_run_formatting b run).themeColor =
          (if b.font_color_black then none else run.themeColor) ∧
        (standardize_run_formatting b run).fontName =
          (if b.font_name ≠ "" then some b.font_name else run.fontName) ∧
        (standardize_run_formatting b run).fontSize =
          (if fontSizeTruthy b.font_size then b.font_size else run.fontSize) ∧
        (standardize_run_formatting b run).highlight = none ∧
        (standardize_run_formatting b run).hasShd = false) := by
  refine ⟨⟨rfl, rfl, rfl, rfl, rfl⟩, ?_, ?_⟩
  · intro b run hb
    simp [standardize_run_formatting, hb]
  · intro b run hb
    simp only [standardize_run_formatting, hb, Bool.not_true, Bool.false_eq_true,
      if_false]
    by_cases hc : b.font_color_black = true <;>
      by_cases hn : b.font_name = "" <;>
        by_cases hs : fontSizeTruthy b.font_size = true <;>
          simp [hc, hn, hs]

/-- Witness for C6 (amended): the identity behaviour at a concrete
non-default option set and run. -/
theorem standardize_run_formatting_behaviour_witness :
    standardize_run_formatting
        { defaultOptions with standardize_formatting := false }
        ⟨some "Arial", some 9, some (1, 2, 3), some "accent1", some "yellow", true⟩ =
      ⟨some "Arial", some 9, some (1, 2, 3), some "accent1", some "yellow", true⟩ :=
  standardize_run_formatting_behaviour.2.1
    { defaultOptions with standardize_formatting := false }
    ⟨some "Arial", some 9, some (1, 2, 3), some "accent1", some "yellow", true⟩ rfl

/-! ### Engine helper lemmas -/

theorem applyRules_cons (reSubR : String → String → String → String)
    (a : String × String) (l : List (String × String)) (t : String) :
    applyRules reSubR (a :: l) t =
      match applyRule reSubR a t with
      | .ok t' => applyRules reSubR l t'
      | .error e => .error e := rfl

theorem applyRules_append (reSubR : String → String → String → String)
    (l1 l2 : List (String × String)) (t : String) :
    applyRules reSubR (l1 ++ l2) t =
      match applyRules reSubR l1 t with
      | .ok t' => applyRules reSubR l2 t'
      | .error e => .error e := by
  induction l1 generalizing t with
  | nil => rfl
  | cons a l ih =>
    rw [List.cons_append, applyRules_cons, applyRules_cons]
    cases h : applyRule reSubR a t with
    | ok t' => exact ih t'
    | error e => rfl

theorem applyRules_fixed (reSubR : String → String → String → String)
    (rules : List (String × String)) (t : String)
    (hfix : ∀ pr ∈ rules, applyRule reSubR pr t = .ok t) :
    applyRules reSubR rules t = .ok t := by
  induction rules with
  | nil => rfl
  | cons a l ih =>
    show (match applyRule reSubR a t with
      | .ok t' => applyRules reSubR l t'
      | .error e => .error e) = .ok t
    rw [hfix a (by simp)]
    exact ih (fun pr hpr => hfix pr (by simp [hpr]))

/-! ### C3: malformed regex rule -/

/-- C3 counterexample: with rules `{"secret": "[X]", "[": "[BAD]"}` applied
to `"the secret plan"`, the first rule already substitutes (document
mutation has begun) before the malformed pattern `"["` is reached and
raises `re.error` — no up-front validation, no `PatternError` — and
`blind_file`'s blanket handler swallows the exception and returns `None`
rather than surfacing anything to the caller. -/
theorem pattern_error_counterexample :
    replace_keywords_in_text (fun _ _ t => t) [("secret", "[X]")]
        "the secret plan" = .ok "the [X] plan" ∧
    replace_keywords_in_text (fun _ _ t => t)
        [("secret", "[X]"), ("[", "[BAD]")] "the secret plan" = .error "[" ∧
    blind_file_txt (fun _ _ t => t)
        [("secret", "[X]"), ("[", "[BAD]")] "the secret plan" = none := by
  refine ⟨by decide, by decide, by decide⟩

/-- C3 (amended): a regex-flagged rule whose pattern does not compile is not
validated up front — the `re.error` (identified only by the offending
pattern) is raised when the rule loop reaches it, after all earlier rules
have already transformed the text — and `blind_file` catches every
exception and returns `None` instead of surfacing a `PatternError` to the
caller; no output is produced. -/
theorem pattern_error_lazy_and_swallowed
    (reSubR : String → String → String → String)
    (pre post : List (String × String)) (p r t t' : String)
    (hpre : applyRules reSubR pre t = .ok t')
    (hreg : is_regex_pattern p = true) (hbad : reCompiles p = false)
    (ht : t ≠ "") :
    replace_keywords_in_text reSubR (pre ++ (p, r) :: post) t =
      Except.error p ∧
    blind_file_txt reSubR (pre ++ (p, r) :: post) t = none := by
  have hrun : applyRules reSubR (pre ++ (p, r) :: post) t = .error p := by
    rw [applyRules_append, hpre]
    show (match applyRule reSubR (p, r) t' with
      | .ok t'' => applyRules reSubR post t''
      | .error e => .error e) = .error p
    simp [applyRule, hreg, hbad]
  have hrep : replace_keywords_in_text reSubR (pre ++ (p, r) :: post) t =
      Except.error p := by
    rw [replace_keywords_in_text, if_neg ht]
    exact hrun
  exact ⟨hrep, by rw [blind_file_txt, hrep]⟩

/-- Witness for C3 (amended) at the concrete rule set of the
counterexample. -/
theorem pattern_error_lazy_and_swallowed_witness :
    blind_file_txt (fun _ _ t => t)
        ([("internal", "[INTERNAL]")] ++ ("[", "[BAD]") :: []) "internal memo" =
      none :=
  (pattern_error_lazy_and_swallowed (fun _ _ t => t)
    [("internal", "[INTERNAL]")] [] "[" "[BAD]" "internal memo"
    "[INTERNAL] memo" (by decide) (by decide) (by decide) (by decide)).2

/-! ### C4: the regex flag -/

/-- C4 counterexample: the pattern `"a[bc]"` contains a character class
opener — the spec's wording flags it as regex — but line 329 only tests
`startswith`, so the engine escapes it and substitutes it as a literal:
on `"ab"`, which the regex `a[bc]` would match, nothing is replaced (the
regex collaborator, here constantly `"X"`, is never consulted). -/
theorem regex_flag_counterexample :
    is_regex_pattern "a[bc]" = false ∧
    is_regex_pattern_spec_contains "a[bc]" = true ∧
    replace_keywords_in_text (fun _ _ _ => "X") [("a[bc]", "X")] "ab" =
      .ok "ab" := by
  refine ⟨by decide, by decide, by decide⟩

/-- C4 (amended): a rule is treated as a regex (compiled, and substituted by
the regex collaborator when it compiles) if and only if its pattern begins
with a word-boundary anchor or begins with a character class opener; every
other pattern is substituted as a case-insensitive literal. -/
theorem regex_flag_startsWith (reSubR : String → String → String → String)
    (p r t : String) (ht : t ≠ "") :
    is_regex_pattern p = is_regex_pattern_spec_startsWith p ∧
    replace_keywords_in_text reSubR [(p, r)] t =
      (if is_regex_pattern p then
        (if reCompiles p then Except.ok (reSubR p r t) else Except.error p)
       else .ok (subLiteralCI p r t)) := by
  constructor
  · rfl
  · rw [replace_keywords_in_text, if_neg ht, applyRules_cons]
    rw [show applyRule reSubR (p, r) t =
      (if is_regex_pattern p then
        (if reCompiles p then Except.ok (reSubR p r t) else Except.error p)
       else .ok (subLiteralCI p r t)) from rfl]
    cases hreg : is_regex_pattern p with
    | true =>
      cases hc : reCompiles p with
      | true => simp [applyRules]
      | false => simp [applyRules]
    | false => simp [applyRules]

/-- Witness for C4 (amended) at a literal rule on concrete text. -/
theorem regex_flag_startsWith_witness :
    replace_keywords_in_text (fun _ _ t => t) [("secret", "[X]")] "Top Secret" =
      .ok "Top [X]" :=
  by
    have h := (regex_flag_startsWith (fun _ _ t => t) "secret" "[X]"
      "Top Secret" (by decide)).2
    rw [h]
    decide

/-! ### C5: idempotence of substitution -/

/-- C5 counterexample: the single literal rule `"aa" → "a"` satisfies the
claim's hypothesis — no source pattern matches inside any replacement
token — yet on `"aaa"` one application yields `"aa"` and a second
application yields `"a"`: the second pass performs an additional
replacement, because removing a match creates a new match across the
boundary.  (Checked against CPython: `re.sub('aa','a','aaa')` is `'aa'`.) -/
theorem substitution_not_idempotent_counterexample :
    (∀ pr ∈ [("aa", "a")], ∀ qr ∈ [("aa", "a")],
      occursCI (pr : String × String).1 (qr : String × String).2 = false) ∧
    replace_keywords_in_text (fun _ _ t => t) [("aa", "a")] "aaa" =
      .ok "aa" ∧
    replace_keywords_in_text (fun _ _ t => t) [("aa", "a")] "aa" =
      .ok "a" := by
  refine ⟨by decide, by decide, by decide⟩

/-- C5 (amended): applying the rule set a second time yields the first
pass's output unchanged provided no rule still changes that output — i.e.
once the first pass's result is a fixed point of every rule.  The claim's
original hypothesis (replacement tokens never re-match a source pattern) is
not sufficient, as the counterexample shows. -/
theorem substitution_idempotent_on_fixed_output
    (reSubR : String → String → String → String)
    (rules : List (String × String)) (t t₁ : String)
    (_h1 : replace_keywords_in_text reSubR rules t = .ok t₁)
    (hfix : ∀ pr ∈ rules, applyRule reSubR pr t₁ = .ok t₁) :
    replace_keywords_in_text reSubR rules t₁ = .ok t₁ := by
  rw [replace_keywords_in_text]
  by_cases he : t₁ = ""
  · rw [if_pos he]
  · rw [if_neg he]
    exact applyRules_fixed reSubR rules t₁ hfix

/-- Witness for C5 (amended) at a concrete rule set and text. -/
theorem substitution_idempotent_on_fixed_output_witness :
    replace_keywords_in_text (fun _ _ t => t) [("xy", "z")] "zq" = .ok "zq" :=
  substitution_idempotent_on_fixed_output (fun _ _ t => t) [("xy", "z")]
    "xyq" "zq" (by decide) (by decide)

/-! ### C1: selective image removal -/

theorem mem_images_to_remove (hash : List Nat → String) (sel : List String)
    (media : List MediaFile) (name : String) :
    name ∈ images_to_remove hash sel media ↔
      ∃ m ∈ media, m.name = name ∧
        should_remove_image hash sel m.data = true := by
  simp only [images_to_remove, List.mem_map, List.mem_filter]
  constructor
  · rintro ⟨m, ⟨hm, hs⟩, hn⟩
    exact ⟨m, hm, hn, hs⟩
  · rintro ⟨m, hm, hn, hs⟩
    exact ⟨m, ⟨hm, hs⟩, hn⟩

theorem mem_rel_ids_to_remove (rels : List Relationship) (names : List String)
    (i : String) :
    i ∈ rel_ids_to_remove rels names ↔
      ∃ rel ∈ rels, rel.rid = i ∧ strContains rel.target "media/" = true ∧
        names.contains (pathName rel.target) = true := by
  simp only [rel_ids_to_remove, List.mem_map, List.mem_filter,
    Bool.and_eq_true]
  constructor
  · rintro ⟨rel, ⟨hm, h1, h2⟩, hi⟩
    exact ⟨rel, hm, hi, h1, h2⟩
  · rintro ⟨rel, hm, hi, h1, h2⟩
    exact ⟨rel, ⟨hm, h1, h2⟩, hi⟩

theorem run_should_remove_of_selected (marked : List String) (run : DocRun)
    (e : Embedding) (he : e ∈ run.embeds) (i : String)
    (hid : e.relId = some i) (hm : marked.contains i = true) :
    run_should_remove marked run = true := by
  rw [run_should_remove, List.any_eq_true]
  refine ⟨e, he, ?_⟩
  rw [hid]
  exact hm

/-- C1 counterexample: a single run embedding two different assets, only the
first of which is selected.  The whole run is removed
(`remove_images_from_tree` works at run granularity), so the embedding of
the *unselected* asset `image2.png` — whose hash `"h2"` is not in the
selection set — is removed as well, contradicting "exactly those embeddings
whose asset content hash is in the selection set are removed".  The
unselected asset's bytes do remain in the asset store. -/
theorem selective_removal_counterexample :
    (let hash : List Nat → String := fun d => if d = [1] then "h1" else "h2"
     let media : List MediaFile := [⟨"image1.png", [1]⟩, ⟨"image2.png", [2]⟩]
     let rels : List Relationship :=
       [⟨"rId1", "media/image1.png"⟩, ⟨"rId2", "media/image2.png"⟩]
     let runs : List DocRun :=
       [⟨[.drawing (some "rId1"), .drawing (some "rId2")]⟩]
     let sel : List String := ["h1"]
     let marked := rel_ids_to_remove rels (images_to_remove hash sel media)
     sel.contains (hash [2]) = false ∧
     Embedding.drawing (some "rId2") ∉ surviving_embeds marked runs ∧
     remaining_media hash sel media = [⟨"image2.png", [2]⟩]) := by
  decide

/-- C1 (amended): with an empty (or `None`) selection set every resolvable
embedding's run is removed and the asset store is emptied; with a non-empty
selection set, exactly those *runs* containing an embedding that resolves to
an asset whose hash is in the selection set are removed (an embedding
sharing a run with a selected one is removed along with it); and an asset
remains — byte-identical — in the output asset store exactly when the
selection set is non-empty and does not contain its hash. -/
theorem selective_removal_amended (hash : List Nat → String)
    (sel : List String) (media : List MediaFile) (rels : List Relationship)
    (runs : List DocRun) :
    (sel = [] → (∀ run ∈ runs, embedsResolvable rels media run) →
      remove_images_from_tree
          (rel_ids_to_remove rels (images_to_remove hash sel media)) runs =
        runs.filter (fun r => r.embeds.isEmpty) ∧
      remaining_media hash sel media = []) ∧
    (sel ≠ [] → ∀ run ∈ runs,
      (run_should_remove
          (rel_ids_to_remove rels (images_to_remove hash sel media)) run =
            true ↔
        ∃ e ∈ run.embeds, resolvesToSelected hash sel rels media e)) ∧
    (∀ m ∈ media,
      (m ∈ remaining_media hash sel media ↔
        sel ≠ [] ∧ sel.contains (hash m.data) = false)) := by
  refine ⟨?_, ?_, ?_⟩
  · rintro rfl hres
    constructor
    · rw [remove_images_from_tree]
      apply List.filter_congr
      intro run hrun
      cases hemb : run.embeds with
      | nil =>
        have : run_should_remove
            (rel_ids_to_remove rels (images_to_remove hash [] media)) run =
              false := by
          rw [run_should_remove, hemb]
          rfl
        simp [this, hemb]
      | cons e es =>
        obtain ⟨rel, hrel, hid, htgt, m, hm, hname⟩ :=
          hres run hrun e (by rw [hemb]; exact List.mem_cons_self e es)
        have hmark : rel.rid ∈
            rel_ids_to_remove rels (images_to_remove hash [] media) := by
          rw [mem_rel_ids_to_remove]
          refine ⟨rel, hrel, rfl, htgt, ?_⟩
          rw [List.elem_iff, mem_images_to_remove]
          exact ⟨m, hm, hname, rfl⟩
        have hrm : run_should_remove
            (rel_ids_to_remove rels (images_to_remove hash [] media)) run =
              true :=
          run_should_remove_of_selected _ run e
            (by rw [hemb]; exact List.mem_cons_self e es) rel.rid hid
            (by rw [List.elem_iff]; exact hmark)
        simp [hrm, hemb]
    · simp [remaining_media, should_remove_image]
  · intro hsel run _hrun
    constructor
    · intro h
      rw [run_should_remove, List.any_eq_true] at h
      obtain ⟨e, he, hmatch⟩ := h
      cases hid : e.relId with
      | none => rw [hid] at hmatch; exact absurd hmatch (by simp)
      | some i =>
        rw [hid] at hmatch
        rw [List.elem_iff, mem_rel_ids_to_remove] at hmatch
        obtain ⟨rel, hrel, hrid, htgt, hnames⟩ := hmatch
        rw [List.elem_iff, mem_images_to_remove] at hnames
        obtain ⟨m, hm, hname, hshould⟩ := hnames
        rw [should_remove_image] at hshould
        rw [if_neg (by simpa [List.isEmpty_iff] using hsel)] at hshould
        exact ⟨e, he, rel, hrel, by rw [hid, hrid], htgt, m, hm, hname,
          hshould⟩
    · rintro ⟨e, he, rel, hrel, hid, htgt, m, hm, hname, hhash⟩
      refine run_should_remove_of_selected _ run e he rel.rid hid ?_
      rw [List.elem_iff, mem_rel_ids_to_remove]
      refine ⟨rel, hrel, rfl, htgt, ?_⟩
      rw [List.elem_iff, mem_images_to_remove]
      refine ⟨m, hm, hname, ?_⟩
      rw [should_remove_image,
        if_neg (by simpa [List.isEmpty_iff] using hsel)]
      exact hhash
  · intro m hm
    rw [remaining_media, List.mem_filter]
    rw [should_remove_image]
    cases hsel : sel.isEmpty with
    | true =>
      have : sel = [] := by simpa [List.isEmpty_iff] using hsel
      simp [hm, this]
    | false =>
      have hne : sel ≠ [] := by simpa [List.isEmpty_iff] using hsel
      simp [hm, hne]

/-- Witness for C1 (amended) at a concrete document: one selected and one
kept asset in separate runs — the selected run is removed, the kept asset
stays byte-identical. -/
theorem selective_removal_amended_witness :
    (⟨"image2.png", [2]⟩ : MediaFile) ∈
      remaining_media (fun d => if d = [1] then "h1" else "h2") ["h1"]
        [⟨"image1.png", [1]⟩, ⟨"image2.png", [2]⟩] :=
  ((selective_removal_amended (fun d => if d = [1] then "h1" else "h2")
      ["h1"] [⟨"image1.png", [1]⟩, ⟨"image2.png", [2]⟩]
      [⟨"rId1", "media/image1.png"⟩, ⟨"rId2", "media/image2.png"⟩]
      [⟨[.drawing (some "rId1")]⟩]).2.2
    ⟨"image2.png", [2]⟩ (by decide)).mpr (by decide)

/-! ### C2: hyperlink unwrap — helper lemmas -/

theorem Elem.tag_node (t : QTag) (a : List (QTag × String))
    (txt : Option String) (cs : List Elem) :
    (Elem.node t a txt cs).tag = t := rfl

theorem Elem.children_node (t : QTag) (a : List (QTag × String))
    (txt : Option String) (cs : List Elem) :
    (Elem.node t a txt cs).children = cs := rfl

theorem textsOf_append (l1 l2 : List Elem) :
    textsOf (l1 ++ l2) = textsOf l1 ++ textsOf l2 := by
  induction l1 with
  | nil => rfl
  | cons c cs ih => simp [textsOf, ih]

theorem textOf_eq_nil_of_mem (l : List Elem) (h : textsOf l = []) :
    ∀ c ∈ l, textOf c = [] := by
  induction l with
  | nil => intro c hc; simp at hc
  | cons c cs ih =>
    rw [textsOf, List.append_eq_nil] at h
    intro d hd
    rcases List.mem_cons.mp hd with rfl | hmem
    · exact h.1
    · exact ih h.2 d hmem

theorem textsOf_eq_nil_of_forall (l : List Elem)
    (h : ∀ c ∈ l, textOf c = []) : textsOf l = [] := by
  induction l with
  | nil => rfl
  | cons c cs ih =>
    rw [textsOf, h c (by simp), ih (fun d hd => h d (by simp [hd]))]
    rfl

theorem textOf_forceBlackColorElem (c : Elem) :
    textOf (forceBlackColorElem c) = textOf c := by
  cases c
  rfl

theorem tag_forceBlackColorElem (c : Elem) :
    (forceBlackColorElem c).tag = c.tag := by
  cases c
  rfl

theorem textsOf_mapFirstColor (l : List Elem) :
    textsOf (mapFirstColor l) = textsOf l := by
  induction l with
  | nil => rfl
  | cons c cs ih =>
    rw [mapFirstColor]
    by_cases hc : c.tag = wTag "color"
    · rw [if_pos hc]
      show textOf (forceBlackColorElem c) ++ textsOf cs = textOf c ++ textsOf cs
      rw [textOf_forceBlackColorElem]
    · rw [if_neg hc]
      show textOf c ++ textsOf (mapFirstColor cs) = textOf c ++ textsOf cs
      rw [ih]

theorem textsOf_filter_nil (φ : Elem → Bool) (l : List Elem)
    (h : textsOf l = []) : textsOf (l.filter φ) = [] := by
  refine textsOf_eq_nil_of_forall _ (fun c hc => ?_)
  exact textOf_eq_nil_of_mem l h c (List.mem_filter.mp hc).1

theorem textOf_cleanRPr (p : Elem) (h : textOf p = []) :
    textOf (cleanRPr p) = [] := by
  obtain ⟨t, a, txt, cs⟩ := p
  rw [textOf, List.append_eq_nil] at h
  rw [cleanRPr]
  show textOf (Elem.node t a txt _) = []
  rw [textOf, h.1, List.nil_append]
  by_cases hany :
      (cs.filter (fun e => e.tag ≠ wTag "u")).any (fun e => e.tag == wTag "color") = true
  · rw [if_pos hany, textsOf_mapFirstColor]
    exact textsOf_filter_nil _ cs h.2
  · rw [if_neg hany]
    show textOf (forceBlackColorElem newColorElem) ++ _ = []
    rw [show textOf (forceBlackColorElem newColorElem) = [] from rfl,
      List.nil_append]
    exact textsOf_filter_nil _ cs h.2

theorem textOf_cleanLinkChild (g : Elem)
    (h : ∀ p ∈ g.children, p.tag = wTag "rPr" → textOf p = []) :
    textOf (cleanLinkChild g) = textOf g := by
  obtain ⟨t, a, txt, cs⟩ := g
  simp only [Elem.children] at h
  rw [cleanLinkChild]
  by_cases hr : t.nm = "r"
  · rw [if_pos hr]
    show textOf (Elem.node t a txt _) = textOf (Elem.node t a txt cs)
    rw [textOf, textOf]
    have : textsOf (cs.map fun p => if p.tag = wTag "rPr" then cleanRPr p else p) =
        textsOf cs := by
      induction cs with
      | nil => rfl
      | cons p ps ih =>
        rw [List.map_cons]
        show textOf _ ++ textsOf _ = textOf p ++ textsOf ps
        rw [ih (fun q hq ht => h q (List.mem_cons_of_mem p hq) ht)]
        by_cases hp : p.tag = wTag "rPr"
        · rw [if_pos hp,
            textOf_cleanRPr p (h p (List.mem_cons_self p ps) hp),
            h p (List.mem_cons_self p ps) hp]
        · rw [if_neg hp]
    rw [this]
  · rw [if_neg hr]

theorem hyperlinkFreeL_iff (l : List Elem) :
    hyperlinkFreeL l = true ↔ ∀ c ∈ l, hyperlinkFree c = true := by
  induction l with
  | nil => simp [hyperlinkFreeL]
  | cons c cs ih =>
    rw [hyperlinkFreeL, Bool.and_eq_true, ih]
    constructor
    · rintro ⟨h1, h2⟩ d hd
      rcases List.mem_cons.mp hd with rfl | hmem
      · exact h1
      · exact h2 d hmem
    · intro h
      exact ⟨h c (by simp), fun d hd => h d (by simp [hd])⟩

theorem hyperlinkFree_forceBlackColorElem (c : Elem) :
    hyperlinkFree (forceBlackColorElem c) = hyperlinkFree c := by
  cases c
  rfl

theorem hyperlinkFreeL_mapFirstColor (l : List Elem) :
    hyperlinkFreeL (mapFirstColor l) = hyperlinkFreeL l := by
  induction l with
  | nil => rfl
  | cons c cs ih =>
    rw [mapFirstColor]
    by_cases hc : c.tag = wTag "color"
    · rw [if_pos hc]
      show (hyperlinkFree (forceBlackColorElem c) && hyperlinkFreeL cs) =
        (hyperlinkFree c && hyperlinkFreeL cs)
      rw [hyperlinkFree_forceBlackColorElem]
    · rw [if_neg hc]
      show (hyperlinkFree c && hyperlinkFreeL (mapFirstColor cs)) =
        (hyperlinkFree c && hyperlinkFreeL cs)
      rw [ih]

theorem hyperlinkFree_cleanRPr (p : Elem) (h : hyperlinkFree p = true) :
    hyperlinkFree (cleanRPr p) = true := by
  obtain ⟨t, a, txt, cs⟩ := p
  rw [hyperlinkFree, Bool.and_eq_true] at h
  rw [cleanRPr]
  show hyperlinkFree (Elem.node t a txt _) = true
  rw [hyperlinkFree, Bool.and_eq_true]
  refine ⟨h.1, ?_⟩
  have hfilter : hyperlinkFreeL (cs.filter (fun e => e.tag ≠ wTag "u")) = true := by
    rw [hyperlinkFreeL_iff]
    intro c hc
    exact (hyperlinkFreeL_iff cs).mp h.2 c (List.mem_filter.mp hc).1
  by_cases hany :
      (cs.filter (fun e => e.tag ≠ wTag "u")).any (fun e => e.tag == wTag "color") = true
  · rw [if_pos hany, hyperlinkFreeL_mapFirstColor]
    exact hfilter
  · rw [if_neg hany]
    show hyperlinkFreeL (forceBlackColorElem newColorElem :: _) = true
    rw [hyperlinkFreeL, Bool.and_eq_true]
    exact ⟨rfl, hfilter⟩

theorem hyperlinkFree_cleanLinkChild (g : Elem)
    (h : hyperlinkFree g = true) :
    hyperlinkFree (cleanLinkChild g) = true := by
  obtain ⟨t, a, txt, cs⟩ := g
  rw [hyperlinkFree, Bool.and_eq_true] at h
  rw [cleanLinkChild]
  by_cases hr : t.nm = "r"
  · rw [if_pos hr]
    show hyperlinkFree (Elem.node t a txt _) = true
    rw [hyperlinkFree, Bool.and_eq_true]
    refine ⟨h.1, ?_⟩
    rw [hyperlinkFreeL_iff]
    intro c hc
    obtain ⟨p, hp, rfl⟩ := List.mem_map.mp hc
    have hpfree : hyperlinkFree p = true := (hyperlinkFreeL_iff cs).mp h.2 p hp
    by_cases hrpr : p.tag = wTag "rPr"
    · rw [if_pos hrpr]
      exact hyperlinkFree_cleanRPr p hpfree
    · rw [if_neg hrpr]
      exact hpfree
  · rw [if_neg hr]
    rw [hyperlinkFree, Bool.and_eq_true]
    exact h

theorem find_setAttr_of_any (k : QTag) (v : String)
    (a : List (QTag × String)) (hany : a.any (fun p => p.1 == k) = true) :
    (a.map (fun p => if p.1 == k then (k, v) else p)).find?
      (fun p => p.1 = k) = some (k, v) := by
  induction a with
  | nil => simp at hany
  | cons q qs ih =>
    rw [List.map_cons]
    by_cases hq : q.1 = k
    · rw [if_pos (by simpa using hq)]
      rw [List.find?_cons_of_pos _ (by simp)]
    · rw [if_neg (by simpa using hq)]
      rw [List.find?_cons_of_neg _ (by simpa using hq)]
      apply ih
      rw [List.any_cons] at hany
      simpa [hq] using hany

theorem find_append_single (k : QTag) (v : String)
    (a : List (QTag × String)) (hany : a.any (fun p => p.1 == k) = false) :
    (a ++ [(k, v)]).find? (fun p => p.1 = k) = some (k, v) := by
  induction a with
  | nil => simp
  | cons q qs ih =>
    rw [List.any_cons] at hany
    rw [List.cons_append,
      List.find?_cons_of_neg _ (by simpa using Bool.or_eq_false_iff.mp hany |>.1)]
    exact ih (Bool.or_eq_false_iff.mp hany).2

theorem find_setAttr (k : QTag) (v : String) (a : List (QTag × String)) :
    (setAttr k v a).find? (fun p => p.1 = k) = some (k, v) := by
  rw [setAttr]
  cases hany : a.any (fun p => p.1 == k) with
  | true => rw [if_pos rfl]; exact find_setAttr_of_any k v a hany
  | false =>
    rw [if_neg (by simp [hany])]
    exact find_append_single k v a hany

theorem find_delAttr_other (k k' : QTag) (hk : k ≠ k')
    (a : List (QTag × String)) :
    (delAttr k' a).find? (fun p => p.1 = k) = a.find? (fun p => p.1 = k) := by
  induction a with
  | nil => rfl
  | cons q qs ih =>
    rw [delAttr, List.filter_cons]
    by_cases hq : q.1 = k'
    · rw [if_neg (by simpa using hq)]
      rw [List.find?_cons_of_neg _ (by simp [hq]; exact fun h => hk h.symm)]
      exact ih
    · rw [if_pos (by simpa using hq)]
      by_cases hqk : q.1 = k
      · rw [List.find?_cons_of_pos _ (by simpa using hqk),
          List.find?_cons_of_pos _ (by simpa using hqk)]
      · rw [List.find?_cons_of_neg _ (by simpa using hqk),
          List.find?_cons_of_neg _ (by simpa using hqk)]
        exact ih

theorem find_delAttr_self (k : QTag) (a : List (QTag × String)) :
    (delAttr k a).find? (fun p => p.1 = k) = none := by
  rw [List.find?_eq_none]
  intro p hp
  have := (List.mem_filter.mp hp).2
  simpa using this

theorem attrGet_forceBlack (c : Elem) :
    (forceBlackColorElem c).attrGet (wTag "val") = some "000000" ∧
    (forceBlackColorElem c).attrGet (wTag "themeColor") = none ∧
    (forceBlackColorElem c).attrGet (wTag "themeTint") = none ∧
    (forceBlackColorElem c).attrGet (wTag "themeShade") = none := by
  obtain ⟨t, a, txt, cs⟩ := c
  rw [forceBlackColorElem]
  refine ⟨?_, ?_, ?_, ?_⟩ <;>
    simp only [Elem.attrGet, Elem.attrs]
  · rw [find_delAttr_other _ _ (by decide), find_delAttr_other _ _ (by decide),
      find_delAttr_other _ _ (by decide), find_setAttr]
    rfl
  · rw [find_delAttr_other _ _ (by decide), find_delAttr_other _ _ (by decide),
      find_delAttr_self]
    rfl
  · rw [find_delAttr_other _ _ (by decide), find_delAttr_self]
    rfl
  · rw [find_delAttr_self]
    rfl

theorem mapFirstColor_colors_black (l : List Elem)
    (hcount : (l.filter (fun e => e.tag == wTag "color")).length ≤ 1) :
    ∀ e ∈ mapFirstColor l, e.tag = wTag "color" →
      e.attrGet (wTag "val") = some "000000" ∧
      e.attrGet (wTag "themeColor") = none ∧
      e.attrGet (wTag "themeTint") = none ∧
      e.attrGet (wTag "themeShade") = none := by
  induction l with
  | nil => intro e he; rw [mapFirstColor] at he; simp at he
  | cons c cs ih =>
    intro e he htag
    rw [mapFirstColor] at he
    by_cases hc : c.tag = wTag "color"
    · rw [if_pos hc] at he
      rcases List.mem_cons.mp he with rfl | hmem
      · exact attrGet_forceBlack c
      · exfalso
        have hcs : e ∈ cs.filter (fun e => e.tag == wTag "color") :=
          List.mem_filter.mpr ⟨hmem, by simpa using htag⟩
        have h1 : 1 ≤ (cs.filter (fun e => e.tag == wTag "color")).length :=
          List.length_pos.mpr (fun hnil => by rw [hnil] at hcs; simp at hcs)
        rw [List.filter_cons, if_pos (by simpa using hc),
          List.length_cons] at hcount
        omega
    · rw [if_neg hc] at he
      rcases List.mem_cons.mp he with rfl | hmem
      · exact absurd htag hc
      · refine ih ?_ e hmem htag
        rw [List.filter_cons, if_neg (by simpa using hc)] at hcount
        exact hcount

theorem length_filter_filter_le (φ ψ : Elem → Bool) (l : List Elem) :
    ((l.filter φ).filter ψ).length ≤ (l.filter ψ).length := by
  induction l with
  | nil => simp
  | cons c cs ih =>
    rw [List.filter_cons, List.filter_cons]
    by_cases hφ : φ c = true
    · rw [if_pos hφ, List.filter_cons]
      by_cases hψ : ψ c = true
      · rw [if_pos hψ, if_pos hψ]
        simpa using ih
      · rw [if_neg hψ, if_neg hψ]
        exact ih
    · rw [if_neg hφ]
      by_cases hψ : ψ c = true
      · rw [if_pos hψ]
        exact le_trans ih (by simp)
      · rw [if_neg hψ]
        exact ih

theorem cleanRPr_children_no_u (p : Elem) :
    ∀ e ∈ (cleanRPr p).children, e.tag ≠ wTag "u" := by
  obtain ⟨t, a, txt, cs⟩ := p
  rw [cleanRPr]
  simp only [Elem.children]
  have hfilter : ∀ e ∈ cs.filter (fun e => e.tag ≠ wTag "u"),
      e.tag ≠ wTag "u" := by
    intro e he
    have := (List.mem_filter.mp he).2
    simpa using this
  have hmap : ∀ e ∈ mapFirstColor (cs.filter (fun e => e.tag ≠ wTag "u")),
      e.tag ≠ wTag "u" := by
    generalize cs.filter (fun e => e.tag ≠ wTag "u") = l at hfilter ⊢
    induction l with
    | nil => intro e he; rw [mapFirstColor] at he; simp at he
    | cons c rest ih =>
      intro e he
      rw [mapFirstColor] at he
      by_cases hc : c.tag = wTag "color"
      · rw [if_pos hc] at he
        rcases List.mem_cons.mp he with rfl | hmem
        · rw [tag_forceBlackColorElem, hc]
          decide
        · exact hfilter e (List.mem_cons_of_mem c hmem)
      · rw [if_neg hc] at he
        rcases List.mem_cons.mp he with rfl | hmem
        · exact hfilter e (List.mem_cons_self e rest)
        · exact ih (fun d hd => hfilter d (List.mem_cons_of_mem c hd)) e hmem
  by_cases hany :
      (cs.filter (fun e => e.tag ≠ wTag "u")).any (fun e => e.tag == wTag "color") = true
  · rw [if_pos hany]
    exact hmap
  · rw [if_neg hany]
    intro e he
    rcases List.mem_cons.mp he with rfl | hmem
    · rw [tag_forceBlackColorElem]
      decide
    · exact hfilter e hmem

theorem cleanRPr_colors_black (p : Elem)
    (hcount : (p.children.filter (fun e => e.tag == wTag "color")).length ≤ 1) :
    ∀ e ∈ (cleanRPr p).children, e.tag = wTag "color" →
      e.attrGet (wTag "val") = some "000000" ∧
      e.attrGet (wTag "themeColor") = none ∧
      e.attrGet (wTag "themeTint") = none ∧
      e.attrGet (wTag "themeShade") = none := by
  obtain ⟨t, a, txt, cs⟩ := p
  simp only [Elem.children] at hcount
  rw [cleanRPr]
  simp only [Elem.children]
  by_cases hany :
      (cs.filter (fun e => e.tag ≠ wTag "u")).any (fun e => e.tag == wTag "color") = true
  · rw [if_pos hany]
    refine mapFirstColor_colors_black _ ?_
    exact le_trans (length_filter_filter_le _ _ cs) hcount
  · rw [if_neg hany]
    intro e he htag
    rcases List.mem_cons.mp he with rfl | hmem
    · exact attrGet_forceBlack newColorElem
    · exfalso
      rw [Bool.not_eq_true, List.any_eq_false] at hany
      exact absurd (by simpa using htag) (hany e hmem)

theorem tag_cleanRPr (q : Elem) : (cleanRPr q).tag = q.tag := by
  obtain ⟨tq, aq, txtq, csq⟩ := q
  rw [cleanRPr]
  rfl

theorem noUnderline_cleanLinkChild (g : Elem) (hg : g.tag.nm = "r") :
    noUnderlineRun (cleanLinkChild g) = true := by
  obtain ⟨t, a, txt, cs⟩ := g
  rw [Elem.tag_node] at hg
  rw [cleanLinkChild, if_pos hg, noUnderlineRun, Elem.children_node,
    List.all_eq_true]
  intro e he
  obtain ⟨q, hq, rfl⟩ := List.mem_map.mp he
  by_cases hrpr : q.tag = wTag "rPr"
  · rw [if_pos hrpr]
    have htag : (cleanRPr q).tag = wTag "rPr" := by
      rw [tag_cleanRPr]
      exact hrpr
    rw [if_pos htag, List.all_eq_true]
    intro u hu
    have := cleanRPr_children_no_u q u hu
    simpa using this
  · rw [if_neg hrpr, if_neg hrpr]

theorem colorsBlack_cleanLinkChild (g : Elem) (hg : g.tag.nm = "r")
    (hcount : ∀ p ∈ g.children, p.tag = wTag "rPr" →
      (p.children.filter (fun e => e.tag == wTag "color")).length ≤ 1) :
    colorsBlackRun (cleanLinkChild g) = true := by
  obtain ⟨t, a, txt, cs⟩ := g
  rw [Elem.tag_node] at hg
  rw [Elem.children_node] at hcount
  rw [cleanLinkChild, if_pos hg, colorsBlackRun, Elem.children_node,
    List.all_eq_true]
  intro e he
  obtain ⟨q, hq, rfl⟩ := List.mem_map.mp he
  by_cases hrpr : q.tag = wTag "rPr"
  · rw [if_pos hrpr]
    have htag : (cleanRPr q).tag = wTag "rPr" := by
      rw [tag_cleanRPr]
      exact hrpr
    rw [if_pos htag, List.all_eq_true]
    intro c hc
    by_cases hcolor : c.tag = wTag "color"
    · rw [if_pos hcolor]
      obtain ⟨h1, h2, h3, h4⟩ :=
        cleanRPr_colors_black q (hcount q hq hrpr) c hc hcolor
      rw [h1, h2, h3, h4]
      rfl
    · rw [if_neg hcolor]
  · rw [if_neg hrpr, if_neg hrpr]

theorem textsOf_map_cleanLinkChild (l : List Elem)
    (h : ∀ g ∈ l, ∀ p ∈ g.children, p.tag = wTag "rPr" → textOf p = []) :
    textsOf (l.map cleanLinkChild) = textsOf l := by
  induction l with
  | nil => rfl
  | cons g gs ih =>
    rw [List.map_cons]
    show textOf (cleanLinkChild g) ++ textsOf (gs.map cleanLinkChild) =
      textOf g ++ textsOf gs
    rw [textOf_cleanLinkChild g (h g (List.mem_cons_self g gs)),
      ih (fun d hd => h d (List.mem_cons_of_mem g hd))]

theorem textOf_hyperlink_children (c : Elem)
    (htag : c.tag = wTag "hyperlink") : textOf c = textsOf c.children := by
  obtain ⟨t, a, txt, ccs⟩ := c
  rw [Elem.tag_node] at htag
  subst htag
  rw [textOf, if_neg (by decide), Elem.children_node]
  rfl

theorem textsOf_remove_hyperlinks (cs : List Elem)
    (h : ∀ c ∈ cs, c.tag = wTag "hyperlink" → ∀ g ∈ c.children,
      ∀ p ∈ g.children, p.tag = wTag "rPr" → textOf p = []) :
    textsOf (remove_hyperlinks_children cs) = textsOf cs := by
  induction cs with
  | nil => rfl
  | cons c rest ih =>
    rw [remove_hyperlinks_children, textsOf_append,
      ih (fun d hd => h d (List.mem_cons_of_mem c hd))]
    show _ = textOf c ++ textsOf rest
    by_cases htag : c.tag = wTag "hyperlink"
    · rw [if_pos htag,
        textsOf_map_cleanLinkChild _ (h c (List.mem_cons_self c rest) htag),
        textOf_hyperlink_children c htag]
    · rw [if_neg htag]
      show textOf c ++ textsOf [] ++ textsOf rest = _
      rw [show textsOf [] = [] from rfl, List.append_nil]

theorem hyperlinkFreeL_remove_hyperlinks (cs : List Elem)
    (hlink : ∀ c ∈ cs, c.tag = wTag "hyperlink" → ∀ g ∈ c.children,
      hyperlinkFree g = true)
    (hother : ∀ c ∈ cs, c.tag ≠ wTag "hyperlink" → hyperlinkFree c = true) :
    hyperlinkFreeL (remove_hyperlinks_children cs) = true := by
  induction cs with
  | nil => rfl
  | cons c rest ih =>
    rw [remove_hyperlinks_children]
    rw [hyperlinkFreeL_iff]
    intro d hd
    rcases List.mem_append.mp hd with hleft | hright
    · by_cases htag : c.tag = wTag "hyperlink"
      · rw [if_pos htag] at hleft
        obtain ⟨g, hg, rfl⟩ := List.mem_map.mp hleft
        exact hyperlinkFree_cleanLinkChild g
          (hlink c (List.mem_cons_self c rest) htag g hg)
      · rw [if_neg htag] at hleft
        rcases List.mem_cons.mp hleft with rfl | habs
        · exact hother d (List.mem_cons_self d rest) htag
        · simp at habs
    · have := ih (fun d hd => hlink d (List.mem_cons_of_mem c hd))
        (fun d hd => hother d (List.mem_cons_of_mem c hd))
      exact (hyperlinkFreeL_iff _).mp this d hright

theorem cleaned_mem_remove_hyperlinks (cs : List Elem) (c : Elem)
    (hc : c ∈ cs) (htag : c.tag = wTag "hyperlink") (g : Elem)
    (hg : g ∈ c.children) :
    cleanLinkChild g ∈ remove_hyperlinks_children cs := by
  induction cs with
  | nil => simp at hc
  | cons d rest ih =>
    rw [remove_hyperlinks_children]
    rcases List.mem_cons.mp hc with rfl | hmem
    · apply List.mem_append_left
      rw [if_pos htag]
      exact List.mem_map_of_mem _ hg
    · exact List.mem_append_right _ (ih hmem)

/-- C2: when every hyperlink wrapper among a paragraph's children contains
only runs (with property containers that hold no visible text and at most
one colour override each, as the file format prescribes), the hyperlink
unwrap of `process_docx_xml_safe` (lines 1555-1596) leaves the paragraph's
plain text byte-identical, leaves no hyperlink node anywhere in the output,
and splices each cleaned run into the paragraph with no underline element
and no colour element other than the explicit black `val="000000"` override
with every theme attribute removed — no link-colour override survives. -/
theorem hyperlink_unwrap (cs : List Elem)
    (hruns : ∀ c ∈ cs, c.tag = wTag "hyperlink" → ∀ g ∈ c.children,
      g.tag.nm = "r" ∧ hyperlinkFree g = true ∧
      ∀ p ∈ g.children, p.tag = wTag "rPr" →
        textOf p = [] ∧
        (p.children.filter (fun e => e.tag == wTag "color")).length ≤ 1)
    (hother : ∀ c ∈ cs, c.tag ≠ wTag "hyperlink" → hyperlinkFree c = true) :
    textsOf (remove_hyperlinks_children cs) = textsOf cs ∧
    hyperlinkFreeL (remove_hyperlinks_children cs) = true ∧
    ∀ c ∈ cs, c.tag = wTag "hyperlink" → ∀ g ∈ c.children,
      cleanLinkChild g ∈ remove_hyperlinks_children cs ∧
      noUnderlineRun (cleanLinkChild g) = true ∧
      colorsBlackRun (cleanLinkChild g) = true := by
  refine ⟨?_, ?_, ?_⟩
  · exact textsOf_remove_hyperlinks cs
      (fun c hc htag g hg p hp hrpr =>
        ((hruns c hc htag g hg).2.2 p hp hrpr).1)
  · exact hyperlinkFreeL_remove_hyperlinks cs
      (fun c hc htag g hg => (hruns c hc htag g hg).2.1) hother
  · intro c hc htag g hg
    refine ⟨cleaned_mem_remove_hyperlinks cs c hc htag g hg, ?_, ?_⟩
    · exact noUnderline_cleanLinkChild g (hruns c hc htag g hg).1
    · exact colorsBlack_cleanLinkChild g (hruns c hc htag g hg).1
        (fun p hp hrpr => ((hruns c hc htag g hg).2.2 p hp hrpr).2)

/-- Witness for C2 at the spec's scenario: a paragraph whose hyperlink wraps
an underlined, link-coloured run with display text `"Click here"` keeps its
plain text byte-identical after the unwrap. -/
theorem hyperlink_unwrap_witness :
    textsOf (remove_hyperlinks_children
      [Elem.node (wTag "hyperlink") [] none
        [Elem.node (wTag "r") [] none
          [Elem.node (wTag "rPr") [] none
            [Elem.node (wTag "u") [] none [],
             Elem.node (wTag "color") [(wTag "val", "0563C1")] none []],
           Elem.node (wTag "t") [] (some "Click here") []]]]) =
    textsOf
      [Elem.node (wTag "hyperlink") [] none
        [Elem.node (wTag "r") [] none
          [Elem.node (wTag "rPr") [] none
            [Elem.node (wTag "u") [] none [],
             Elem.node (wTag "color") [(wTag "val", "0563C1")] none []],
           Elem.node (wTag "t") [] (some "Click here") []]]] :=
  (hyperlink_unwrap
    [Elem.node (wTag "hyperlink") [] none
      [Elem.node (wTag "r") [] none
        [Elem.node (wTag "rPr") [] none
          [Elem.node (wTag "u") [] none [],
           Elem.node (wTag "color") [(wTag "val", "0563C1")] none []],
         Elem.node (wTag "t") [] (some "Click here") []]]]
    (by decide) (by decide)).1

end BlindingApp
